import Mathlib

/-!
Verification of the streamrip download-orchestration core.

This file is a shallow embedding, in Lean 4, of the parts of the source
relevant to the idempotency ledger, the Pending-to-Media resolvers for
tracks and albums, the album repeat filter, genre enrichment, the worker
retry policy, and the tagger dispatch.  Stateful code is modelled by
explicit state passing: each resolver takes the ledger (the `Database`)
and returns the produced media (or nothing), the updated ledger, and a
trace of the external effects it performed (metadata fetches,
downloadable fetches, filesystem operations), in order.
-/

/-! ### Ledger

Modelled from the spec: the `db` module (the `Database` wrapper over the
`downloads`, `failed` and `releases` tables) is not under `src/`; only its
callers are.  Section 4.8 of the spec describes the three tables as
presence-keyed relations, with `releases` additionally storing a child
count, so the model keeps each table as a list of rows and queries them by
membership. -/

structure ReleaseRow where
  id : String
  kind : String
  source : String
  childCount : Nat
deriving DecidableEq, Repr

/-- Modelled from the spec: the three ledger tables of section 4.8
(`downloads(trackId)`, `failures(source, kind, id)`,
`releases(source, kind, id) -> childCount`), presence = recorded. -/
structure Database where
  downloads : List String
  failures : List (String × String × String)
  releases : List ReleaseRow
deriving DecidableEq, Repr

/-- `Database.downloaded(track_id)`: presence in the downloads table. -/
def Database.downloaded (db : Database) (id : String) : Bool :=
  db.downloads.contains id

/-- `Database.set_downloaded(track_id)`: record a track as downloaded. -/
def Database.set_downloaded (db : Database) (id : String) : Database :=
  { db with downloads := id :: db.downloads }

/-- `Database.set_failed(source, media_type, id)`: record a terminal failure. -/
def Database.set_failed (db : Database) (source kind id : String) : Database :=
  { db with failures := (source, kind, id) :: db.failures }

/-- `Database.release_downloaded(release_id, release_type, source)`:
presence in the releases table, keyed by the (id, kind, source) triple. -/
def Database.release_downloaded (db : Database) (id kind source : String) : Bool :=
  db.releases.any fun r => r.id = id ∧ r.kind = kind ∧ r.source = source

/-- `Database.set_release_downloaded(release_id, release_type, source, track_count)`. -/
def Database.set_release_downloaded (db : Database) (id kind source : String)
    (count : Nat) : Database :=
  { db with releases := ⟨id, kind, source, count⟩ :: db.releases }

/-! ### Effect traces

Each resolver returns, besides its result and the updated ledger, the list
of external effects it performed, in order.  Ledger writes are visible in
the returned `Database` instead. -/

inductive Event where
  /-- `client.get_metadata(id, kind)` was called. -/
  | fetchMeta (id kind : String)
  /-- `client.get_downloadable(id, quality)` was called. -/
  | fetchDownloadable (id : String) (quality : Nat)
  /-- `download_artwork(...)` was called. -/
  | fetchArtwork
  /-- `os.makedirs(folder, exist_ok=True)` was called. -/
  | makeDirs (folder : String)
  /-- bytes were written to a file at `path` (never done by a resolver). -/
  | writeFile (path : String)
deriving DecidableEq, Repr

/-- True for the file-writing effect, false for every other effect. -/
def Event.isFileWrite : Event → Bool
  | .writeFile _ => true
  | _ => false

/-! ### String helpers

Python string methods are embedded at the character-list level (a Lean
`String` is a list of characters); semantics are unchanged for the ASCII
data the claims are about. -/

/-- Embedding of `str.upper()`. -/
def strToUpper (s : String) : String :=
  ⟨s.data.map Char.toUpper⟩

/-- Embedding of `str.lower()`. -/
def strToLower (s : String) : String :=
  ⟨s.data.map Char.toLower⟩

/-- Embedding of `str.strip()`: drop leading and trailing whitespace. -/
def stripChars (l : List Char) : List Char :=
  ((l.dropWhile Char.isWhitespace).reverse.dropWhile Char.isWhitespace).reverse

/-! ### Track model (`streamrip/media/track.py`, `streamrip/metadata/track.py`)

`TrackInfo` keeps the fields the resolvers read and write: the advertised
maximum quality, streamability, and the container (overwritten from the
downloadable's extension).  The remaining tag fields of the source
dataclasses do not affect any claim and are omitted. -/

structure TrackInfo where
  id : String
  quality : Nat
  streamable : Bool
  container : String
deriving DecidableEq, Repr

structure TrackMetadata where
  info : TrackInfo
deriving DecidableEq, Repr

/-- The provider-produced byte-stream handle for a chosen quality.
`quality` records the quality argument `get_downloadable` was called with. -/
structure Downloadable where
  extension : String
  quality : Nat
deriving DecidableEq, Repr

/-- The resolved `Track` media object (fields used by the claims). -/
structure Track where
  meta : TrackMetadata
  downloadable : Downloadable
  folder : String
  cover_path : Option String
  is_single : Bool := false
deriving DecidableEq, Repr

/-- Outcome of `client.get_metadata` followed by `TrackMetadata.from_resp`:
the fetch can raise NonStreamableError, the normalizer can raise a parse
error, or a normalized record is produced. -/
inductive TrackMetaFetch where
  | fetchErr
  | parseErr
  | ok (meta : TrackMetadata)
deriving DecidableEq, Repr

/-- The provider client and session environment a track resolver runs in,
with each fallible external call represented by its outcome. -/
structure TrackClientEnv where
  source : String
  metaFetch : TrackMetaFetch
  /-- outcome of `client.get_downloadable(id, q)`: the extension of the
  returned downloadable, or `none` for NonStreamableError. -/
  dlExtension : Nat → Option String


/-- Per-source session config read by the resolvers
(`config.session.get_source(source)`). -/
structure SourceConfig where
  quality : Nat
  lower_quality_if_not_available : Bool
deriving DecidableEq, Repr

/-- `PendingTrack`: a deferred track fetch inside an album context. -/
structure PendingTrack where
  id : String
  folder : String
  cover_path : Option String
deriving DecidableEq, Repr

/-- Embedding of `PendingTrack.resolve` (media/track.py).  Steps, in source
order: ledger idempotency check; metadata fetch and normalization;
streamability check; quality selection against the per-source config;
downloadable fetch; container update from the downloadable extension.
The disc-subdirectory adjustment of the target folder (pure path
formatting, read by no claim) is omitted: the produced track carries the
pending's folder. -/
def PendingTrack.resolve (p : PendingTrack) (env : TrackClientEnv)
    (cfg : SourceConfig) (db : Database) :
    Option Track × Database × List Event :=
  if db.downloaded p.id then
    (none, db, [])
  else
    match env.metaFetch with
    | .fetchErr => (none, db, [.fetchMeta p.id "track"])
    | .parseErr => (none, db, [.fetchMeta p.id "track"])
    | .ok meta =>
      if meta.info.streamable = false then
        (none, db.set_failed env.source "track" p.id, [.fetchMeta p.id "track"])
      else if meta.info.quality < cfg.quality ∧
          cfg.lower_quality_if_not_available = false then
        (none, db.set_failed env.source "track" p.id, [.fetchMeta p.id "track"])
      else
        let quality := min cfg.quality meta.info.quality
        match env.dlExtension quality with
        | none =>
          (none, db.set_failed env.source "track" p.id,
            [.fetchMeta p.id "track", .fetchDownloadable p.id quality])
        | some ext =>
          (some
            { meta := { info := { meta.info with container := strToUpper ext } }
              downloadable := ⟨ext, quality⟩
              folder := p.folder
              cover_path := p.cover_path },
            db,
            [.fetchMeta p.id "track", .fetchDownloadable p.id quality])

/-- Result of `PendingSingle.resolve`: a track, a skip (`return None`), or
an uncaught exception (its `get_downloadable` call is not wrapped in a
try block, unlike `PendingTrack.resolve`). -/
inductive SingleResult where
  | track (t : Track)
  | skip
  | raised
deriving DecidableEq, Repr

/-- Outcome of `AlbumMetadata.from_track_resp`: parse error, a `None`
album (source not streamable), or a normalized album record. -/
inductive AlbumFromTrackResp where
  | parseErr
  | noneAlbum
  | ok
deriving DecidableEq, Repr

/-- Environment of `PendingSingle.resolve`: the track client outcomes plus
the album-from-track-response normalization outcome and the folder the
source-side formatting logic would produce. -/
structure SingleEnv where
  source : String
  /-- whether `client.get_metadata(id, "track")` succeeds. -/
  fetchOk : Bool
  albumParse : AlbumFromTrackResp
  /-- outcome of `TrackMetadata.from_resp`; `none` is a parse error. -/
  metaParse : Option TrackMetadata
  dlExtension : Nat → Option String
  folder : String


/-- `PendingSingle`: a deferred fetch for a standalone track. -/
structure PendingSingle where
  id : String
deriving DecidableEq, Repr

/-- Embedding of `PendingSingle.resolve` (media/track.py).  Same ledger
check and quality policy as `PendingTrack.resolve`, preceded by album
metadata construction and followed by folder creation and a gathered
cover download and downloadable fetch. -/
def PendingSingle.resolve (p : PendingSingle) (env : SingleEnv)
    (cfg : SourceConfig) (coverPath : Option String) (db : Database) :
    SingleResult × Database × List Event :=
  if db.downloaded p.id then
    (.skip, db, [])
  else if env.fetchOk = false then
    (.skip, db, [.fetchMeta p.id "track"])
  else
    match env.albumParse with
    | .parseErr => (.skip, db, [.fetchMeta p.id "track"])
    | .noneAlbum =>
      (.skip, db.set_failed env.source "track" p.id, [.fetchMeta p.id "track"])
    | .ok =>
      match env.metaParse with
      | none => (.skip, db, [.fetchMeta p.id "track"])
      | some meta =>
        if meta.info.streamable = false then
          (.skip, db.set_failed env.source "track" p.id, [.fetchMeta p.id "track"])
        else if meta.info.quality < cfg.quality ∧
            cfg.lower_quality_if_not_available = false then
          (.skip, db.set_failed env.source "track" p.id, [.fetchMeta p.id "track"])
        else
          let quality := min cfg.quality meta.info.quality
          match env.dlExtension quality with
          | none =>
            (.raised, db,
              [.fetchMeta p.id "track", .makeDirs env.folder, .fetchArtwork,
                .fetchDownloadable p.id quality])
          | some ext =>
            (.track
              { meta := { info := { meta.info with container := strToUpper ext } }
                downloadable := ⟨ext, quality⟩
                folder := env.folder
                cover_path := coverPath
                is_single := true },
              db,
              [.fetchMeta p.id "track", .makeDirs env.folder, .fetchArtwork,
                .fetchDownloadable p.id quality])

/-! ### Album model (`streamrip/media/album.py`, `streamrip/metadata/album.py`) -/

/-- `AlbumInfo` (metadata/album.py): the sub-record carrying quality,
explicitness and resolution data.  The album id lives here, on `info`,
not on `AlbumMetadata` itself. -/
structure AlbumInfo where
  id : String
  quality : Nat
  container : String
  explicit : Bool := false
  sampling_rate : Option Nat := none
  bit_depth : Option Nat := none
  streamable : Bool := true
deriving DecidableEq, Repr

/-- `AlbumMetadata` (metadata/album.py): a slots dataclass whose fields are
`info`, `album` (the title), and further tag fields that no claim reads.
It has no field named `id`. -/
structure AlbumMetadata where
  info : AlbumInfo
  album : String
deriving DecidableEq, Repr

/-- Embedding of `getattr(meta, "id", None)` as performed by
`Album.postprocess`.  `AlbumMetadata` is declared with
`@dataclass(slots=True)` and has no attribute named `id` (the id is
`meta.info.id`), so the `getattr` lookup always falls through to its
default `None`, for every instance. -/
def AlbumMetadata.getattr_id (_meta : AlbumMetadata) : Option String :=
  none

/-- A pending track as built by `PendingAlbum.resolve`: the child id plus
the shared album metadata, target folder and embedded cover path. -/
structure AlbumPendingTrack where
  id : String
  album : AlbumMetadata
  folder : String
  cover_path : Option String
deriving DecidableEq, Repr

/-- The resolved `Album` media object. -/
structure Album where
  meta : AlbumMetadata
  tracks : List AlbumPendingTrack
  folder : String
deriving DecidableEq, Repr

/-- Outcome of `client.get_metadata(id, "album")` followed by
`AlbumMetadata.from_album_resp`; the tracklist is the list of child track
ids read off `resp["tracks"]`. -/
inductive AlbumMetaFetch where
  | fetchErr
  | parseErr
  | ok (meta : AlbumMetadata) (tracklist : List String)
deriving DecidableEq, Repr

/-- Environment of `PendingAlbum.resolve`: the metadata fetch outcome, the
folder the source-side `_album_folder` formatting would produce, and the
embed-cover path returned by `download_artwork`. -/
structure AlbumClientEnv where
  source : String
  metaFetch : AlbumMetaFetch
  folder : String
  embedCover : Option String

/-- `PendingAlbum`: a deferred album fetch. -/
structure PendingAlbum where
  id : String
deriving DecidableEq, Repr

/-- Embedding of `PendingAlbum.resolve` (media/album.py).  Steps, in
source order: release-ledger idempotency check; metadata fetch and
normalization; streamability check; the all-tracks-already-downloaded
recovery (writes the release row and skips); folder creation, artwork
download and construction of the pending child tracks. -/
def PendingAlbum.resolve (p : PendingAlbum) (env : AlbumClientEnv)
    (db : Database) : Option Album × Database × List Event :=
  if db.release_downloaded p.id "album" env.source then
    (none, db, [])
  else
    match env.metaFetch with
    | .fetchErr => (none, db, [.fetchMeta p.id "album"])
    | .parseErr => (none, db, [.fetchMeta p.id "album"])
    | .ok meta tracklist =>
      if meta.info.streamable = false then
        (none, db, [.fetchMeta p.id "album"])
      else if (tracklist.all fun tid => db.downloaded tid) ∧ 0 < tracklist.length then
        (none,
          db.set_release_downloaded p.id "album" env.source tracklist.length,
          [.fetchMeta p.id "album"])
      else
        (some
          { meta := meta
            tracks := tracklist.map fun tid =>
              { id := tid
                album := meta
                folder := env.folder
                cover_path := env.embedCover }
            folder := env.folder },
          db,
          [.fetchMeta p.id "album", .makeDirs env.folder, .fetchArtwork])

/-- Embedding of `Album.postprocess` (media/album.py).  After its tracks
have terminated it counts the ledger-downloaded tracks, and when all of
them (a positive number) are downloaded it looks up the album id with
`getattr(self.meta, "id", None)` and, only for a truthy id, writes the
release row.  `source` abstracts `self.tracks[0].client.source`. -/
def Album.postprocess (a : Album) (source : String) (dry_run : Bool)
    (db : Database) : Database :=
  if dry_run then db
  else
    let track_ids := a.tracks.map (·.id)
    let downloaded_tracks := (track_ids.filter fun tid => db.downloaded tid).length
    let total_tracks := track_ids.length
    if downloaded_tracks = total_tracks ∧ 0 < total_tracks then
      match a.meta.getattr_id with
      | some album_id =>
        if album_id = "" then db
        else db.set_release_downloaded album_id "album" source total_tracks
      | none => db
    else db

/-! ### Download worker retry policy (`streamrip/rip/main.py`) -/

/-- `DownloadTask` (download_task.py): the queued unit of work.  Its
`track` field holds a `PendingTrack` or `PendingSingle` (a pending, not a
resolved `Track`). -/
structure DownloadTask where
  track : PendingTrack
  retry_count : Nat := 0
deriving DecidableEq, Repr

/-- Embedding of `hasattr(task.track, "meta")` as tested by
`Main._download_worker` before recording a terminal failure.
`PendingTrack` and `PendingSingle` are slots dataclasses with no `meta`
attribute (only a resolved `Track` has one), and `DownloadTask.track`
always holds a pending, so the test is false for every task. -/
def DownloadTask.track_hasattr_meta (_t : DownloadTask) : Bool :=
  false

/-- What the worker does with a task whose processing raised. -/
inductive WorkerAction where
  /-- put the task back on the queue after sleeping `sleepSeconds`. -/
  | requeue (task : DownloadTask) (sleepSeconds : Nat)
  /-- drop the task. -/
  | drop
deriving DecidableEq, Repr

/-- Embedding of the exception handler of `Main._download_worker`
(rip/main.py): with `max_retries = 3`, a task below the limit has its
`retry_count` incremented and is re-queued after sleeping
`retry_count * 2` seconds (the incremented count); otherwise the worker
records a failure only under the `hasattr(task.track, "meta")` guard and
drops the task. -/
def Main.download_worker_on_error (task : DownloadTask) (db : Database) :
    WorkerAction × Database :=
  let max_retries := 3
  if task.retry_count < max_retries then
    let retried := { task with retry_count := task.retry_count + 1 }
    (.requeue retried (retried.retry_count * 2), db)
  else
    (.drop,
      if task.track_hasattr_meta then
        db.set_failed "" "track" task.track.id
      else db)

/-! ### Genre enrichment (`streamrip/metadata/rym_service.py`) -/

/-- Order-preserving de-duplication keeping the first occurrence of each
element, processing left to right with an accumulator of already seen
elements.  `dedupKeepFirst` is the embedding of
`list(dict.fromkeys(combined))`. -/
def dedupSeen (seen : List String) : List String → List String
  | [] => []
  | x :: xs => if x ∈ seen then dedupSeen seen xs else x :: dedupSeen (x :: seen) xs

def dedupKeepFirst (l : List String) : List String :=
  dedupSeen [] l

/-- Embedding of `RymMetadataService.enrich_genres`.  The RYM metadata is
represented by its genre list; a missing or empty genre list returns the
existing genres unchanged.  `genre_mode` is the configured string; any
mode other than "replace" or "append" falls back to replace behavior
with a warning. -/
def RymMetadataService.enrich_genres (genre_mode : String)
    (existing_genres rym_genres : List String) : List String :=
  if rym_genres.isEmpty then existing_genres
  else if genre_mode = "replace" then rym_genres
  else if genre_mode = "append" then dedupKeepFirst (existing_genres ++ rym_genres)
  else rym_genres

/-! ### Tagger (`streamrip/metadata/tagger.py`) -/

/-- `FLAC_MAX_BLOCKSIZE` (tagger.py line 19). -/
def FLAC_MAX_BLOCKSIZE : Nat := 16777215

inductive Container where
  | FLAC
  | AAC
  | MP3
deriving DecidableEq, Repr

/-- Embedding of the FLAC branch of `Container.embed_cover`: the cover
file size is checked against `FLAC_MAX_BLOCKSIZE` and an oversized cover
raises before the picture block is built; otherwise the picture is
embedded. -/
def Container.embed_cover_flac (coverSize : Nat) : Except String Unit :=
  if coverSize > FLAC_MAX_BLOCKSIZE then
    .error "Cover art too big for FLAC"
  else
    .ok ()

/-- The extension computed by `tag_file`: the substring after the last
dot (the whole path when there is no dot), lowercased. -/
def tagFileExtension (path : String) : String :=
  strToLower ⟨(path.data.splitOn '.').getLastD []⟩

/-- Embedding of the dispatch stage of `tag_file` (tagger.py): the
extension selects the container, and any other extension raises before
any tag is computed or written.  Tag construction and saving happen only
after a container is returned. -/
def tag_file_dispatch (path : String) : Except String Container :=
  if tagFileExtension path = "flac" then .ok .FLAC
  else if tagFileExtension path = "m4a" then .ok .AAC
  else if tagFileExtension path = "mp3" then .ok .MP3
  else .error ("Invalid extension " ++ tagFileExtension path)

/-! ### Artist repeat filter (`streamrip/media/artist.py`)

`Artist._filter_repeats` groups the resolved albums by normalized title
(the regex match `([^\(\[]+)` on the title, stripped and lowercased) into
a dict in first-occurrence key order, then sorts each group three times
with Python's stable `sorted` (by explicit, then sampling rate, then bit
depth, each descending) and keeps the first element of each group. -/

/-- The normalized title: the maximal prefix free of '(' and '[',
stripped and lowercased.  The source asserts that the regex matched,
which holds exactly when this prefix is nonempty; on a title starting
with '(' or '[' (or an empty title) the source raises AssertionError, so
theorems about the filter assume nonempty prefixes. -/
def essence (title : String) : String :=
  strToLower ⟨stripChars (title.data.takeWhile fun c => c != '(' && c != '[')⟩

/-- The explicit flag as a sort key (Python sorts False before True). -/
def exN (a : Album) : Nat := if a.meta.info.explicit then 1 else 0

/-- The sampling-rate sort key: `album.meta.info.sampling_rate or 0`. -/
def srN (a : Album) : Nat := a.meta.info.sampling_rate.getD 0

/-- The bit-depth sort key: `album.meta.info.bit_depth or 0`. -/
def bdN (a : Album) : Nat := a.meta.info.bit_depth.getD 0

def exGe (a b : Album) : Prop := exN b ≤ exN a

def srGe (a b : Album) : Prop := srN b ≤ srN a

def bdGe (a b : Album) : Prop := bdN b ≤ bdN a

instance : DecidableRel exGe := fun a b => inferInstanceAs (Decidable (exN b ≤ exN a))

instance : DecidableRel srGe := fun a b => inferInstanceAs (Decidable (srN b ≤ srN a))

instance : DecidableRel bdGe := fun a b => inferInstanceAs (Decidable (bdN b ≤ bdN a))

/-- The three stable descending sorts applied to a group, in source
order: by explicit, then by sampling rate, then by bit depth.  Python's
`sorted(reverse=True)` is a stable sort under the weak order "key not
below"; a stable sort for a total preorder has a unique result, so the
stable `insertionSort` embeds it faithfully. -/
def sortGroup (g : List Album) : List Album :=
  List.insertionSort bdGe (List.insertionSort srGe (List.insertionSort exGe g))

/-- One step of the grouping dict: `groups.get(title, [])`, append, and
store, keeping an existing key in place and adding a new key at the end
(Python dicts preserve insertion order). -/
def addToGroups : List (String × List Album) → String → Album →
    List (String × List Album)
  | [], k, a => [(k, [a])]
  | (k', g) :: rest, k, a =>
    if k' = k then (k', g ++ [a]) :: rest
    else (k', g) :: addToGroups rest k a

/-- The grouping loop of `Artist._filter_repeats` over the album list. -/
def buildGroupsAux : List (String × List Album) → List Album →
    List (String × List Album)
  | gs, [] => gs
  | gs, a :: rest => buildGroupsAux (addToGroups gs (essence a.meta.album) a) rest

/-- Association-list lookup on the grouping dict. -/
def lookupGroup : List (String × List Album) → String → Option (List Album)
  | [], _ => none
  | (k', g) :: rest, k => if k' = k then some g else lookupGroup rest k

/-- Embedding of `Artist._filter_repeats`: group by normalized title,
triple-sort each group, and keep each group's first element, in the
dict's key-insertion order. -/
def Artist.filter_repeats (albums : List Album) : List Album :=
  (buildGroupsAux [] albums).filterMap fun kg => (sortGroup kg.2).head?

/-- The ordering the code's composition of stable sorts actually selects
winners by: lexicographic on (bit depth, sampling rate, explicit), each
descending. -/
def codeKeyLe (a b : Album) : Prop :=
  bdN a < bdN b ∨
    (bdN a = bdN b ∧ (srN a < srN b ∨ (srN a = srN b ∧ exN a ≤ exN b)))

/-- The ordering the spec sentence claims winners are selected by,
stated from the spec's words for comparison: lexicographic on
(explicit, sampling rate, bit depth), each descending. -/
def specKeyLe (a b : Album) : Prop :=
  exN a < exN b ∨
    (exN a = exN b ∧ (srN a < srN b ∨ (srN a = srN b ∧ bdN a ≤ bdN b)))

instance : DecidableRel codeKeyLe := fun a b => by
  unfold codeKeyLe
  infer_instance

instance : DecidableRel specKeyLe := fun a b => by
  unfold specKeyLe
  infer_instance

/-- Check a predicate on the track of a `SingleResult`, true otherwise. -/
def SingleResult.allTrack (f : Track → Bool) : SingleResult → Bool
  | .track t => f t
  | _ => true

/-- Combine a previously stored group with newly filtered members; `none`
stands for an absent dict key. -/
def combineGroup : Option (List Album) → List Album → Option (List Album)
  | some g, l => some (g ++ l)
  | none, l => if l.isEmpty then none else some l

/-! ## Theorems -/

/-- C1: a track id already recorded as downloaded makes both
`PendingTrack.resolve` and `PendingSingle.resolve` return immediately:
the result is empty, the ledger is unchanged, and the effect trace is
empty, so no metadata fetch, downloadable fetch, or file write happens
for that id in any invocation after `downloaded(t)` holds. -/
theorem resolve_skips_recorded_download (p : PendingTrack) (s : PendingSingle)
    (env : TrackClientEnv) (senv : SingleEnv) (cfg : SourceConfig)
    (cover : Option String) (db : Database)
    (hp : db.downloaded p.id = true) (hs : db.downloaded s.id = true) :
    PendingTrack.resolve p env cfg db = (none, db, []) ∧
    PendingSingle.resolve s senv cfg cover db = (.skip, db, []) := by
  refine ⟨?_, ?_⟩
  · unfold PendingTrack.resolve
    simp [hp]
  · unfold PendingSingle.resolve
    simp [hs]

/-- Witness for C1 at a concrete ledger that has track t1 recorded. -/
theorem resolve_skips_recorded_download_witness :
    PendingTrack.resolve ⟨"t1", "f", none⟩
        ⟨"qobuz", .fetchErr, fun _ => none⟩ ⟨2, false⟩ ⟨["t1"], [], []⟩ =
      (none, ⟨["t1"], [], []⟩, []) ∧
    PendingSingle.resolve ⟨"t1"⟩ ⟨"qobuz", true, .ok, none, fun _ => none, "f"⟩
        ⟨2, false⟩ none ⟨["t1"], [], []⟩ =
      (.skip, ⟨["t1"], [], []⟩, []) :=
  resolve_skips_recorded_download _ _ _ _ _ _ _ (by decide) (by decide)

/-- C2 (code bug): `Album.postprocess` never writes a release row, for
any album, source, and ledger, because `getattr(self.meta, "id", None)`
always yields the default: `AlbumMetadata` is a slots dataclass without
an `id` attribute.  The claimed write of `release(albumId, "album",
source)` when all tracks are downloaded therefore never happens. -/
theorem album_postprocess_never_writes (a : Album) (source : String)
    (dry_run : Bool) (db : Database) :
    Album.postprocess a source dry_run db = db := by
  unfold Album.postprocess AlbumMetadata.getattr_id
  split
  · rfl
  · split
    · next heq => simp at heq
    · simp

/-- C5: an album whose fetched metadata lists a nonempty tracklist with
every child already recorded as downloaded is marked complete:
`PendingAlbum.resolve` writes the release row with the track count,
returns nothing, and its effect trace holds only the metadata fetch, so
no per-track downloadable is fetched. -/
theorem album_resolve_recovers_complete (p : PendingAlbum)
    (env : AlbumClientEnv) (db : Database) (meta : AlbumMetadata)
    (tracklist : List String)
    (hr : db.release_downloaded p.id "album" env.source = false)
    (hm : env.metaFetch = .ok meta tracklist)
    (hs : meta.info.streamable = true)
    (hne : tracklist ≠ [])
    (hall : (tracklist.all fun tid => db.downloaded tid) = true) :
    PendingAlbum.resolve p env db =
      (none, db.set_release_downloaded p.id "album" env.source tracklist.length,
        [.fetchMeta p.id "album"]) := by
  have hpos : 0 < tracklist.length := List.length_pos.mpr hne
  unfold PendingAlbum.resolve
  simp [hr, hm, hs, hall, hpos]

/-- Witness for C5: an album with two tracks, both in the ledger. -/
theorem album_resolve_recovers_complete_witness :
    PendingAlbum.resolve ⟨"a1"⟩
        ⟨"qobuz", .ok ⟨⟨"a1", 2, "FLAC", false, none, none, true⟩, "X"⟩
          ["t1", "t2"], "fold", none⟩
        ⟨["t1", "t2"], [], []⟩ =
      (none,
        Database.set_release_downloaded ⟨["t1", "t2"], [], []⟩ "a1" "album" "qobuz" 2,
        [.fetchMeta "a1" "album"]) := by
  exact album_resolve_recovers_complete ⟨"a1"⟩ _ _
    ⟨⟨"a1", 2, "FLAC", false, none, none, true⟩, "X"⟩ ["t1", "t2"]
    (by decide) rfl (by decide) (by decide) (by decide)

/-- C9 counterexample: an album whose fetched metadata has zero child
tracks does not make the resolver return nothing: the claim that
`PendingAlbum.resolve` returns null for zero-track albums is false at
this input (the resolver builds an `Album` with an empty track list). -/
theorem album_resolve_zero_tracks_counterexample :
    (PendingAlbum.resolve ⟨"a1"⟩
        ⟨"qobuz", .ok ⟨⟨"a1", 2, "FLAC", false, none, none, true⟩, "X"⟩ [],
          "fold", none⟩
        ⟨[], [], []⟩).1 ≠ none := by
  decide

/-- C9 amended: an album reference whose fetched metadata contains zero
child tracks (streamable, not already recorded) resolves to an `Album`
with an empty track list, not to null, and performs no ledger write. -/
theorem album_resolve_zero_tracks (p : PendingAlbum) (env : AlbumClientEnv)
    (db : Database) (meta : AlbumMetadata)
    (hr : db.release_downloaded p.id "album" env.source = false)
    (hm : env.metaFetch = .ok meta [])
    (hs : meta.info.streamable = true) :
    PendingAlbum.resolve p env db =
      (some { meta := meta, tracks := [], folder := env.folder }, db,
        [.fetchMeta p.id "album", .makeDirs env.folder, .fetchArtwork]) := by
  unfold PendingAlbum.resolve
  simp [hr, hm, hs]

/-- Witness for the amended C9 at a concrete zero-track album. -/
theorem album_resolve_zero_tracks_witness :
    PendingAlbum.resolve ⟨"a1"⟩
        ⟨"qobuz", .ok ⟨⟨"a1", 2, "FLAC", false, none, none, true⟩, "X"⟩ [],
          "fold", none⟩
        ⟨[], [], []⟩ =
      (some { meta := ⟨⟨"a1", 2, "FLAC", false, none, none, true⟩, "X"⟩,
              tracks := [], folder := "fold" },
        ⟨[], [], []⟩,
        [.fetchMeta "a1" "album", .makeDirs "fold", .fetchArtwork]) :=
  album_resolve_zero_tracks _ _ _ _ (by decide) rfl (by decide)

/-- C7 (code bug): a task whose processing raised is re-queued with its
retry count incremented after sleeping the incremented count times two
seconds while it is below the limit of 3 retries; at the limit it is
dropped, but the ledger is returned unchanged: the failure write claimed
by the spec is dead code behind `hasattr(task.track, "meta")`, which is
false for every queued pending. -/
theorem download_worker_retry_policy (task : DownloadTask) (db : Database) :
    (task.retry_count < 3 →
      Main.download_worker_on_error task db =
        (.requeue { task with retry_count := task.retry_count + 1 }
          ((task.retry_count + 1) * 2), db)) ∧
    (3 ≤ task.retry_count →
      Main.download_worker_on_error task db = (.drop, db)) := by
  unfold Main.download_worker_on_error DownloadTask.track_hasattr_meta
  constructor
  · intro h
    simp [h]
  · intro h
    rw [if_neg (by omega)]
    simp

/-- Witness for C7: a task at the retry limit is dropped with the ledger
unchanged; a fresh task is re-queued with count 1 after a 2s sleep. -/
theorem download_worker_retry_policy_witness :
    Main.download_worker_on_error ⟨⟨"t1", "f", none⟩, 3⟩ ⟨[], [], []⟩ =
      (.drop, ⟨[], [], []⟩) ∧
    Main.download_worker_on_error ⟨⟨"t1", "f", none⟩, 0⟩ ⟨[], [], []⟩ =
      (.requeue ⟨⟨"t1", "f", none⟩, 1⟩ 2, ⟨[], [], []⟩) :=
  ⟨(download_worker_retry_policy _ _).2 (by decide),
    (download_worker_retry_policy _ _).1 (by decide)⟩

/-- C8: a FLAC cover of size at most `FLAC_MAX_BLOCKSIZE` bytes embeds
successfully, any strictly larger cover raises, and the limit is
16 MiB minus one byte. -/
theorem flac_cover_size_limit (size : Nat) :
    (size ≤ FLAC_MAX_BLOCKSIZE → Container.embed_cover_flac size = .ok ()) ∧
    (FLAC_MAX_BLOCKSIZE < size →
      Container.embed_cover_flac size = .error "Cover art too big for FLAC") ∧
    FLAC_MAX_BLOCKSIZE = 16 * 1024 * 1024 - 1 := by
  unfold Container.embed_cover_flac FLAC_MAX_BLOCKSIZE
  refine ⟨?_, ?_, by norm_num⟩
  · intro h
    rw [if_neg (by omega)]
  · intro h
    rw [if_pos (by omega)]

/-- Witness for C8 at the boundary sizes. -/
theorem flac_cover_size_limit_witness :
    Container.embed_cover_flac 16777215 = .ok () ∧
    Container.embed_cover_flac 16777216 = .error "Cover art too big for FLAC" :=
  ⟨(flac_cover_size_limit 16777215).1 (by decide),
    (flac_cover_size_limit 16777216).2.1 (by decide)⟩

/-- C10: `tag_file` raises at its dispatch stage, before any tag is
computed or written, for every path whose lowercased extension is not
exactly flac, m4a or mp3; mp4 in particular raises; the three allowed
extensions select a container. -/
theorem tag_file_extension_allowlist (path : String) :
    (tagFileExtension path ∉ ["flac", "m4a", "mp3"] →
      tag_file_dispatch path =
        .error ("Invalid extension " ++ tagFileExtension path)) ∧
    (tagFileExtension path ∈ ["flac", "m4a", "mp3"] →
      ∃ c, tag_file_dispatch path = .ok c) ∧
    tag_file_dispatch "track.mp4" = .error "Invalid extension mp4" := by
  refine ⟨?_, ?_, by rfl⟩
  · intro h
    simp only [List.mem_cons, List.not_mem_nil, or_false, not_or] at h
    unfold tag_file_dispatch
    rw [if_neg h.1, if_neg h.2.1, if_neg h.2.2]
  · intro h
    simp only [List.mem_cons, List.not_mem_nil, or_false] at h
    unfold tag_file_dispatch
    rcases h with h | h | h
    · exact ⟨.FLAC, by rw [if_pos h]⟩
    · refine ⟨.AAC, ?_⟩
      rw [h]
      rfl
    · refine ⟨.MP3, ?_⟩
      rw [h]
      rfl

/-- Witness for C10 at a path with an uppercase mp4 extension. -/
theorem tag_file_extension_allowlist_witness :
    tag_file_dispatch "a.MP4" = .error ("Invalid extension " ++ tagFileExtension "a.MP4") :=
  (tag_file_extension_allowlist "a.MP4").1 (by decide)

/-- Membership in the seen-accumulating dedup: an element is kept exactly
when it occurs in the list and was not seen before. -/
theorem mem_dedupSeen : ∀ (l : List String) (seen : List String) (a : String),
    a ∈ dedupSeen seen l ↔ a ∈ l ∧ a ∉ seen := by
  intro l
  induction l with
  | nil => simp [dedupSeen]
  | cons x xs ih =>
    intro seen a
    unfold dedupSeen
    by_cases hx : x ∈ seen
    · rw [if_pos hx, ih]
      simp only [List.mem_cons]
      constructor
      · rintro ⟨h1, h2⟩
        exact ⟨Or.inr h1, h2⟩
      · rintro ⟨h1 | h1, h2⟩
        · subst h1
          exact absurd hx h2
        · exact ⟨h1, h2⟩
    · rw [if_neg hx]
      simp only [List.mem_cons, ih, not_or]
      constructor
      · rintro (rfl | ⟨h1, h2⟩)
        · exact ⟨Or.inl rfl, hx⟩
        · exact ⟨Or.inr h1, h2.2⟩
      · rintro ⟨rfl | h1, h2⟩
        · exact Or.inl rfl
        · by_cases hax : a = x
          · exact Or.inl hax
          · exact Or.inr ⟨h1, hax, h2⟩

/-- The dedup of a concatenation extends the dedup of its first part. -/
theorem dedupSeen_append : ∀ (l₁ : List String) (seen l₂ : List String),
    ∃ t, dedupSeen seen (l₁ ++ l₂) = dedupSeen seen l₁ ++ t := by
  intro l₁
  induction l₁ with
  | nil => exact fun seen l₂ => ⟨dedupSeen seen l₂, rfl⟩
  | cons x xs ih =>
    intro seen l₂
    by_cases hx : x ∈ seen
    · simpa [dedupSeen, hx] using ih seen l₂
    · obtain ⟨t, ht⟩ := ih (x :: seen) l₂
      exact ⟨t, by simp [dedupSeen, hx, ht]⟩

/-- C6: genre enrichment policy of `enrich_genres`.  In replace mode the
result is the RYM list exactly when RYM returned at least one genre and
the original list otherwise; in append mode the result is the
concatenation deduplicated keeping first occurrences, so every original
entry is kept, and the deduplicated original list is a prefix of the
result (original entries keep their relative order). -/
theorem enrich_genres_spec (existing rym : List String) :
    (RymMetadataService.enrich_genres "replace" existing rym =
      if rym.isEmpty then existing else rym) ∧
    (RymMetadataService.enrich_genres "append" existing rym =
      if rym.isEmpty then existing
      else dedupKeepFirst (existing ++ rym)) ∧
    (∀ g ∈ existing, g ∈ RymMetadataService.enrich_genres "append" existing rym) ∧
    (rym ≠ [] → ∃ t, dedupKeepFirst existing ++ t =
      RymMetadataService.enrich_genres "append" existing rym) := by
  refine ⟨?_, ?_, ?_, ?_⟩
  · by_cases hE : rym.isEmpty <;> simp [RymMetadataService.enrich_genres, hE]
  · by_cases hE : rym.isEmpty <;> simp [RymMetadataService.enrich_genres, hE]
  · intro g hg
    by_cases hE : rym.isEmpty
    · simpa [RymMetadataService.enrich_genres, hE] using hg
    · have : g ∈ dedupKeepFirst (existing ++ rym) := by
        rw [dedupKeepFirst, mem_dedupSeen]
        exact ⟨List.mem_append_left _ hg, List.not_mem_nil g⟩
      simpa [RymMetadataService.enrich_genres, hE] using this
  · intro hne
    have hE : rym.isEmpty = false := by
      simpa [List.isEmpty_iff] using hne
    obtain ⟨t, ht⟩ := dedupSeen_append existing [] rym
    refine ⟨t, ?_⟩
    simp [RymMetadataService.enrich_genres, hE, dedupKeepFirst, ht]

/-- Witness for C6 on concrete genre lists with an overlap and an
original-side duplicate. -/
theorem enrich_genres_spec_witness :
    RymMetadataService.enrich_genres "replace" ["rock", "pop", "rock"]
        ["pop", "jazz"] = ["pop", "jazz"] ∧
    RymMetadataService.enrich_genres "append" ["rock", "pop", "rock"]
        ["pop", "jazz"] = ["rock", "pop", "jazz"] ∧
    "rock" ∈ RymMetadataService.enrich_genres "append" ["rock", "pop", "rock"]
        ["pop", "jazz"] :=
  ⟨(enrich_genres_spec _ _).1.trans (by decide),
    (enrich_genres_spec _ _).2.1.trans (by decide),
    (enrich_genres_spec _ _).2.2.1 "rock" (by decide)⟩

/-- C3: quality selection in both track resolvers.  With advertised
maximum Q_max = meta.info.quality and requested Q_req = cfg.quality:
when Q_max is at least Q_req any produced track carries download quality
Q_req; when Q_max is below Q_req with the fallback enabled it carries
Q_max; when Q_max is below Q_req with the fallback disabled the resolver
records failed(source, "track", id) and returns nothing having only
fetched metadata; every produced track carries quality
min(Q_req, Q_max); and no resolver effect trace ever writes a file. -/
theorem quality_selection_policy
    (p : PendingTrack) (s : PendingSingle) (env : TrackClientEnv)
    (senv : SingleEnv) (cfg : SourceConfig) (cover : Option String)
    (db : Database) (meta : TrackMetadata)
    (hnd : db.downloaded p.id = false)
    (hm : env.metaFetch = .ok meta)
    (hstream : meta.info.streamable = true)
    (hnds : db.downloaded s.id = false)
    (hfetch : senv.fetchOk = true)
    (halb : senv.albumParse = .ok)
    (hmp : senv.metaParse = some meta) :
    (cfg.quality ≤ meta.info.quality →
      ((PendingTrack.resolve p env cfg db).1.all
        fun t => t.downloadable.quality == cfg.quality) = true) ∧
    (meta.info.quality < cfg.quality →
      cfg.lower_quality_if_not_available = true →
      ((PendingTrack.resolve p env cfg db).1.all
        fun t => t.downloadable.quality == meta.info.quality) = true) ∧
    (meta.info.quality < cfg.quality →
      cfg.lower_quality_if_not_available = false →
      PendingTrack.resolve p env cfg db =
        (none, db.set_failed env.source "track" p.id,
          [.fetchMeta p.id "track"])) ∧
    (((PendingTrack.resolve p env cfg db).1.all
      fun t => t.downloadable.quality == min cfg.quality meta.info.quality) = true) ∧
    (((PendingTrack.resolve p env cfg db).2.2.all
      fun e => !e.isFileWrite) = true) ∧
    (cfg.quality ≤ meta.info.quality →
      (SingleResult.allTrack (fun t => t.downloadable.quality == cfg.quality)
        (PendingSingle.resolve s senv cfg cover db).1) = true) ∧
    (meta.info.quality < cfg.quality →
      cfg.lower_quality_if_not_available = true →
      (SingleResult.allTrack (fun t => t.downloadable.quality == meta.info.quality)
        (PendingSingle.resolve s senv cfg cover db).1) = true) ∧
    (meta.info.quality < cfg.quality →
      cfg.lower_quality_if_not_available = false →
      PendingSingle.resolve s senv cfg cover db =
        (.skip, db.set_failed senv.source "track" s.id,
          [.fetchMeta s.id "track"])) ∧
    ((SingleResult.allTrack
      (fun t => t.downloadable.quality == min cfg.quality meta.info.quality)
      (PendingSingle.resolve s senv cfg cover db).1) = true) ∧
    (((PendingSingle.resolve s senv cfg cover db).2.2.all
      fun e => !e.isFileWrite) = true) := by
  refine ⟨?_, ?_, ?_, ?_, ?_, ?_, ?_, ?_, ?_, ?_⟩
  · intro hq
    unfold PendingTrack.resolve
    simp only [hnd, hm, hstream, Bool.false_eq_true, if_false]
    simp [Nat.not_lt.mpr hq]
    cases hdl : env.dlExtension (min cfg.quality meta.info.quality) <;>
      simp [hdl, Nat.min_eq_left hq]
  · intro hq hfb
    unfold PendingTrack.resolve
    simp [hnd, hm, hstream, hfb]
    cases hdl : env.dlExtension (min cfg.quality meta.info.quality) <;>
      simp [hdl, Nat.min_eq_right (Nat.le_of_lt hq)]
  · intro hq hfb
    unfold PendingTrack.resolve
    simp [hnd, hm, hstream, hq, hfb]
  · unfold PendingTrack.resolve
    simp [hnd, hm, hstream]
    by_cases hc : meta.info.quality < cfg.quality ∧
        cfg.lower_quality_if_not_available = false
    · simp [hc]
    · simp [hc]
      cases hdl : env.dlExtension (min cfg.quality meta.info.quality) <;>
        simp [hdl]
  · unfold PendingTrack.resolve
    simp [hnd, hm, hstream]
    by_cases hc : meta.info.quality < cfg.quality ∧
        cfg.lower_quality_if_not_available = false
    · simp [hc, Event.isFileWrite]
    · simp [hc]
      cases hdl : env.dlExtension (min cfg.quality meta.info.quality) <;>
        simp [hdl, Event.isFileWrite]
  · intro hq
    unfold PendingSingle.resolve
    simp [hnds, hfetch, halb, hmp, hstream, Nat.not_lt.mpr hq]
    cases hdl : senv.dlExtension (min cfg.quality meta.info.quality) <;>
      simp [hdl, SingleResult.allTrack, Nat.min_eq_left hq]
  · intro hq hfb
    unfold PendingSingle.resolve
    simp [hnds, hfetch, halb, hmp, hstream, hfb]
    cases hdl : senv.dlExtension (min cfg.quality meta.info.quality) <;>
      simp [hdl, SingleResult.allTrack, Nat.min_eq_right (Nat.le_of_lt hq)]
  · intro hq hfb
    unfold PendingSingle.resolve
    simp [hnds, hfetch, halb, hmp, hstream, hq, hfb]
  · unfold PendingSingle.resolve
    simp [hnds, hfetch, halb, hmp, hstream]
    by_cases hc : meta.info.quality < cfg.quality ∧
        cfg.lower_quality_if_not_available = false
    · simp [hc, SingleResult.allTrack]
    · simp [hc]
      cases hdl : senv.dlExtension (min cfg.quality meta.info.quality) <;>
        simp [hdl, SingleResult.allTrack]
  · unfold PendingSingle.resolve
    simp [hnds, hfetch, halb, hmp, hstream]
    by_cases hc : meta.info.quality < cfg.quality ∧
        cfg.lower_quality_if_not_available = false
    · simp [hc, Event.isFileWrite]
    · simp [hc]
      cases hdl : senv.dlExtension (min cfg.quality meta.info.quality) <;>
        simp [hdl, Event.isFileWrite]

/-- Witness for C3: a track advertising quality 1 against a request for
quality 2 with the fallback disabled is recorded as failed by both
resolvers; the same track with quality 1 requested resolves at quality 1. -/
theorem quality_selection_policy_witness :
    PendingTrack.resolve ⟨"t1", "f", none⟩
        ⟨"qobuz", .ok ⟨⟨"t1", 1, true, "FLAC"⟩⟩, fun _ => some "flac"⟩
        ⟨2, false⟩ ⟨[], [], []⟩ =
      (none, Database.set_failed ⟨[], [], []⟩ "qobuz" "track" "t1",
        [.fetchMeta "t1" "track"]) ∧
    PendingSingle.resolve ⟨"t1"⟩
        ⟨"qobuz", true, .ok, some ⟨⟨"t1", 1, true, "FLAC"⟩⟩,
          fun _ => some "flac", "f"⟩
        ⟨2, false⟩ none ⟨[], [], []⟩ =
      (.skip, Database.set_failed ⟨[], [], []⟩ "qobuz" "track" "t1",
        [.fetchMeta "t1" "track"]) ∧
    ((PendingTrack.resolve ⟨"t1", "f", none⟩
        ⟨"qobuz", .ok ⟨⟨"t1", 1, true, "FLAC"⟩⟩, fun _ => some "flac"⟩
        ⟨1, false⟩ ⟨[], [], []⟩).1.all
      fun t => t.downloadable.quality == 1) = true := by
  have h := quality_selection_policy ⟨"t1", "f", none⟩ ⟨"t1"⟩
    ⟨"qobuz", .ok ⟨⟨"t1", 1, true, "FLAC"⟩⟩, fun _ => some "flac"⟩
    ⟨"qobuz", true, .ok, some ⟨⟨"t1", 1, true, "FLAC"⟩⟩,
      fun _ => some "flac", "f"⟩
    ⟨2, false⟩ none ⟨[], [], []⟩ ⟨⟨"t1", 1, true, "FLAC"⟩⟩
    (by decide) rfl (by decide) (by decide) rfl rfl rfl
  have h1 := quality_selection_policy ⟨"t1", "f", none⟩ ⟨"t1"⟩
    ⟨"qobuz", .ok ⟨⟨"t1", 1, true, "FLAC"⟩⟩, fun _ => some "flac"⟩
    ⟨"qobuz", true, .ok, some ⟨⟨"t1", 1, true, "FLAC"⟩⟩,
      fun _ => some "flac", "f"⟩
    ⟨1, false⟩ none ⟨[], [], []⟩ ⟨⟨"t1", 1, true, "FLAC"⟩⟩
    (by decide) rfl (by decide) (by decide) rfl rfl rfl
  exact ⟨h.2.2.1 (by decide) (by decide), h.2.2.2.2.2.2.2.1 (by decide) (by decide),
    h1.1 (by decide)⟩

/-- Inserting into a list that is sorted for `r` and, among `r`-ties,
ordered by `q`, preserves that shape when the inserted element is
`q`-before everything in the list.  This is the stability argument for
one insertion. -/
theorem pairwise_orderedInsert_stable {α : Type} (r : α → α → Prop)
    [DecidableRel r] (q : α → α → Prop)
    (total : ∀ a b, r a b ∨ r b a) (trans : ∀ a b c, r a b → r b c → r a c) :
    ∀ (L : List α) (x : α),
      L.Pairwise (fun a b => r a b ∧ (r b a → q a b)) →
      (∀ b ∈ L, q x b) →
      (List.orderedInsert r x L).Pairwise fun a b => r a b ∧ (r b a → q a b) := by
  intro L
  induction L with
  | nil =>
    intro x _ _
    simp
  | cons b L ih =>
    intro x hL hq
    rw [List.orderedInsert]
    by_cases hrxb : r x b
    · rw [if_pos hrxb]
      refine List.pairwise_cons.mpr ⟨?_, hL⟩
      intro c hc
      rcases List.mem_cons.mp hc with rfl | hcL
      · exact ⟨hrxb, fun _ => hq c (List.mem_cons_self c L)⟩
      · have hbc : r b c := ((List.pairwise_cons.mp hL).1 c hcL).1
        exact ⟨trans x b c hrxb hbc, fun _ => hq c (List.mem_cons_of_mem b hcL)⟩
    · rw [if_neg hrxb]
      refine List.pairwise_cons.mpr
        ⟨?_, ih x (List.pairwise_cons.mp hL).2
          fun c hc => hq c (List.mem_cons_of_mem b hc)⟩
      intro c hc
      rcases (List.mem_orderedInsert r).mp hc with rfl | hcL
      · have hbc : r b c := (total c b).resolve_left hrxb
        exact ⟨hbc, fun hxb => absurd hxb hrxb⟩
      · exact (List.pairwise_cons.mp hL).1 c hcL

/-- Stability of `insertionSort`: sorting a list that is pairwise `q`
related yields a list sorted for `r` in which `r`-ties stay `q`-ordered. -/
theorem pairwise_insertionSort_stable {α : Type} (r : α → α → Prop)
    [DecidableRel r] (q : α → α → Prop)
    (total : ∀ a b, r a b ∨ r b a) (trans : ∀ a b c, r a b → r b c → r a c) :
    ∀ l : List α, l.Pairwise q →
      (List.insertionSort r l).Pairwise fun a b => r a b ∧ (r b a → q a b) := by
  intro l
  induction l with
  | nil =>
    intro _
    simp
  | cons x t ih =>
    intro hl
    rw [List.insertionSort]
    refine pairwise_orderedInsert_stable r q total trans _ x
      (ih (List.pairwise_cons.mp hl).2) ?_
    intro c hc
    exact (List.pairwise_cons.mp hl).1 c ((List.mem_insertionSort r).mp hc)

/-- The triple sort permutes its input. -/
theorem sortGroup_perm (g : List Album) : List.Perm (sortGroup g) g := by
  unfold sortGroup
  exact (List.perm_insertionSort bdGe _).trans
    ((List.perm_insertionSort srGe _).trans (List.perm_insertionSort exGe g))

/-- After the three stable sorts a group is ordered lexicographically:
descending bit depth, then descending sampling rate among bit-depth
ties, then descending explicitness among full ties. -/
theorem sortGroup_pairwise (g : List Album) :
    (sortGroup g).Pairwise fun a b =>
      bdGe a b ∧ (bdGe b a → srGe a b ∧ (srGe b a → exGe a b)) := by
  have htriv : g.Pairwise fun _ _ => (True : Prop) := by
    induction g with
    | nil => exact List.Pairwise.nil
    | cons a t iht => exact List.Pairwise.cons (fun b _ => trivial) iht
  have h1 : (List.insertionSort exGe g).Pairwise exGe := by
    have := pairwise_insertionSort_stable exGe (fun _ _ => (True : Prop))
      (fun a b => Nat.le_total (exN b) (exN a))
      (fun a b c hab hbc => Nat.le_trans hbc hab) g htriv
    exact this.imp fun h => h.1
  have h2 := pairwise_insertionSort_stable srGe exGe
    (fun a b => Nat.le_total (srN b) (srN a))
    (fun a b c hab hbc => Nat.le_trans hbc hab) _ h1
  have h3 := pairwise_insertionSort_stable bdGe
    (fun a b => srGe a b ∧ (srGe b a → exGe a b))
    (fun a b => Nat.le_total (bdN b) (bdN a))
    (fun a b c hab hbc => Nat.le_trans hbc hab) _ h2
  exact h3

/-- The first element of a triple-sorted group dominates every group
member in the code's lexicographic key order. -/
theorem sortGroup_head_max {g : List Album} {w : Album}
    (hw : (sortGroup g).head? = some w) :
    ∀ b ∈ g, codeKeyLe b w := by
  intro b hb
  have hb' : b ∈ sortGroup g := (sortGroup_perm g).mem_iff.mpr hb
  have hpw := sortGroup_pairwise g
  cases hsg : sortGroup g with
  | nil =>
    rw [hsg] at hw
    simp at hw
  | cons w' t =>
    rw [hsg] at hw hb' hpw
    have hww : w' = w := by simpa using hw
    subst hww
    rcases List.mem_cons.mp hb' with rfl | hbt
    · exact Or.inr ⟨rfl, Or.inr ⟨rfl, Nat.le_refl _⟩⟩
    · have hs := (List.pairwise_cons.mp hpw).1 b hbt
      unfold bdGe srGe exGe at hs
      unfold codeKeyLe
      omega

/-- Keys after one dict store: unchanged for an existing key, appended
for a new key. -/
theorem map_fst_addToGroups (gs : List (String × List Album)) (k : String)
    (a : Album) :
    (addToGroups gs k a).map Prod.fst =
      if k ∈ gs.map Prod.fst then gs.map Prod.fst
      else gs.map Prod.fst ++ [k] := by
  induction gs with
  | nil => simp [addToGroups]
  | cons kg rest ih =>
    obtain ⟨k', g⟩ := kg
    by_cases hk : k' = k
    · subst hk
      simp [addToGroups]
    · by_cases hmem : k ∈ rest.map Prod.fst <;>
        simp [addToGroups, hk, ih, hmem, Ne.symm hk]

/-- Looking up the stored key after a dict store returns the old value
with the album appended. -/
theorem lookupGroup_addToGroups_self (gs : List (String × List Album))
    (k : String) (a : Album) :
    lookupGroup (addToGroups gs k a) k =
      some ((lookupGroup gs k).getD [] ++ [a]) := by
  induction gs with
  | nil => simp [addToGroups, lookupGroup]
  | cons kg rest ih =>
    obtain ⟨k', g⟩ := kg
    by_cases hk : k' = k
    · subst hk
      simp [addToGroups, lookupGroup]
    · simp [addToGroups, lookupGroup, hk, ih]

/-- A dict store does not change the value at any other key. -/
theorem lookupGroup_addToGroups_other (gs : List (String × List Album))
    (k : String) (a : Album) (k' : String) (h : k' ≠ k) :
    lookupGroup (addToGroups gs k a) k' = lookupGroup gs k' := by
  induction gs with
  | nil => simp [addToGroups, lookupGroup, Ne.symm h]
  | cons kg rest ih =>
    obtain ⟨k'', g⟩ := kg
    by_cases hk : k'' = k
    · subst hk
      simp [addToGroups, lookupGroup, Ne.symm h]
    · simp [addToGroups, lookupGroup, hk, ih]

/-- The grouping loop stores, at each key, exactly the albums whose
normalized title equals that key, in input order. -/
theorem lookupGroup_buildGroupsAux :
    ∀ (albums : List Album) (gs : List (String × List Album)) (k : String),
      lookupGroup (buildGroupsAux gs albums) k =
        combineGroup (lookupGroup gs k)
          (albums.filter fun a => essence a.meta.album = k) := by
  intro albums
  induction albums with
  | nil =>
    intro gs k
    rw [buildGroupsAux]
    cases lookupGroup gs k <;> simp [combineGroup]
  | cons a rest ih =>
    intro gs k
    rw [buildGroupsAux, ih]
    by_cases hk : essence a.meta.album = k
    · rw [hk, lookupGroup_addToGroups_self]
      rw [List.filter_cons_of_pos (by simpa using hk)]
      cases hl : lookupGroup gs k <;> simp [combineGroup]
    · rw [lookupGroup_addToGroups_other _ _ _ _ (Ne.symm hk)]
      rw [List.filter_cons_of_neg (by simpa using hk)]

/-- The dedup result only depends on the membership of the seen set. -/
theorem dedupSeen_congr : ∀ (l s₁ s₂ : List String),
    (∀ x, x ∈ s₁ ↔ x ∈ s₂) → dedupSeen s₁ l = dedupSeen s₂ l := by
  intro l
  induction l with
  | nil => intro _ _ _; rfl
  | cons x xs ih =>
    intro s₁ s₂ hs
    unfold dedupSeen
    by_cases hx : x ∈ s₁
    · rw [if_pos hx, if_pos ((hs x).mp hx), ih _ _ hs]
    · rw [if_neg hx, if_neg fun h => hx ((hs x).mpr h),
        ih (x :: s₁) (x :: s₂) fun y => by simp [List.mem_cons, hs y]]

/-- The key list of the grouping dict is the first-occurrence dedup of
the normalized titles. -/
theorem map_fst_buildGroupsAux :
    ∀ (albums : List Album) (gs : List (String × List Album)),
      (buildGroupsAux gs albums).map Prod.fst =
        gs.map Prod.fst ++
          dedupSeen (gs.map Prod.fst)
            (albums.map fun a => essence a.meta.album) := by
  intro albums
  induction albums with
  | nil =>
    intro gs
    rw [buildGroupsAux]
    simp [dedupSeen]
  | cons a rest ih =>
    intro gs
    rw [buildGroupsAux, ih, map_fst_addToGroups]
    by_cases hk : essence a.meta.album ∈ gs.map Prod.fst
    · rw [if_pos hk]
      simp only [List.map_cons]
      rw [dedupSeen, if_pos hk]
    · rw [if_neg hk]
      simp only [List.map_cons]
      conv_rhs => rw [dedupSeen]
      rw [if_neg hk,
        dedupSeen_congr (rest.map fun a => essence a.meta.album)
          (gs.map Prod.fst ++ [essence a.meta.album])
          (essence a.meta.album :: gs.map Prod.fst)
          fun y => by simp [List.mem_append, List.mem_cons, or_comm]]
      simp

/-- The dedup is duplicate-free and avoids the seen set. -/
theorem dedupSeen_nodup : ∀ (l seen : List String),
    (dedupSeen seen l).Nodup ∧ ∀ x ∈ dedupSeen seen l, x ∉ seen := by
  intro l
  induction l with
  | nil =>
    intro seen
    simp [dedupSeen]
  | cons x xs ih =>
    intro seen
    unfold dedupSeen
    by_cases hx : x ∈ seen
    · rw [if_pos hx]
      exact ih seen
    · rw [if_neg hx]
      obtain ⟨hnd, hdisj⟩ := ih (x :: seen)
      refine ⟨List.nodup_cons.mpr ⟨?_, hnd⟩, ?_⟩
      · intro hmem
        exact (hdisj x hmem) (List.mem_cons_self x seen)
      · intro y hy
        rcases List.mem_cons.mp hy with rfl | hy'
        · exact hx
        · intro hyseen
          exact hdisj y hy' (List.mem_cons_of_mem x hyseen)

/-- With duplicate-free keys, association membership determines lookup. -/
theorem lookupGroup_of_mem :
    ∀ (gs : List (String × List Album)), (gs.map Prod.fst).Nodup →
      ∀ {k : String} {g : List Album}, (k, g) ∈ gs → lookupGroup gs k = some g := by
  intro gs
  induction gs with
  | nil =>
    intro _ k g h
    simp at h
  | cons kg rest ih =>
    obtain ⟨k', g'⟩ := kg
    intro hnd k g hmem
    simp only [List.map_cons] at hnd
    rcases List.mem_cons.mp hmem with heq | hmem'
    · injection heq with hk hg
      subst hk
      subst hg
      simp [lookupGroup]
    · have hk : k' ≠ k := by
        intro h
        subst h
        exact (List.nodup_cons.mp hnd).1
          (List.mem_map.mpr ⟨(k', g), hmem', rfl⟩)
      rw [lookupGroup, if_neg hk]
      exact ih (List.nodup_cons.mp hnd).2 hmem'

/-- Mapping the normalized title over the per-group winners recovers the
key list, whenever every group yields a winner carrying its key. -/
theorem map_essence_filterMap :
    ∀ gs : List (String × List Album),
      (∀ kg ∈ gs, ∃ h, (sortGroup kg.2).head? = some h ∧
        essence h.meta.album = kg.1) →
      ((gs.filterMap fun kg => (sortGroup kg.2).head?).map
        fun a => essence a.meta.album) = gs.map Prod.fst := by
  intro gs
  induction gs with
  | nil => intro _; rfl
  | cons kg rest ih =>
    intro hall
    obtain ⟨h, hh, he⟩ := hall kg (List.mem_cons_self kg rest)
    simp only [List.filterMap_cons, hh, List.map_cons, he]
    rw [ih fun kg' hm => hall kg' (List.mem_cons_of_mem kg hm)]

/-- C4 amended: the repeat filter partitions the albums into groups by
normalized title and keeps exactly one winner per group (the winner list
maps onto the first-occurrence dedup of the normalized titles), each
winner is drawn from the input, and each winner is maximal in its group
under the lexicographic key (bit depth descending, sampling rate
descending, explicit descending).  The hypothesis restricts to inputs on
which the source's regex assertion holds. -/
theorem filter_repeats_spec (albums : List Album)
    (htitles : (albums.all fun a =>
      !((a.meta.album.data.takeWhile fun c => c != '(' && c != '[').isEmpty)) =
      true) :
    ((Artist.filter_repeats albums).map fun a => essence a.meta.album) =
      dedupKeepFirst (albums.map fun a => essence a.meta.album) ∧
    ∀ w ∈ Artist.filter_repeats albums, w ∈ albums ∧
      ∀ b ∈ albums, essence b.meta.album = essence w.meta.album →
        codeKeyLe b w := by
  have hkeys : (buildGroupsAux [] albums).map Prod.fst =
      dedupSeen [] (albums.map fun a => essence a.meta.album) := by
    simpa using map_fst_buildGroupsAux albums []
  have hnodup : ((buildGroupsAux [] albums).map Prod.fst).Nodup := by
    rw [hkeys]
    exact (dedupSeen_nodup _ _).1
  have hgroup : ∀ kg ∈ buildGroupsAux [] albums,
      kg.2 = albums.filter (fun a => essence a.meta.album = kg.1) ∧
        kg.2 ≠ [] := by
    intro kg hm
    obtain ⟨k, g⟩ := kg
    have hl : lookupGroup (buildGroupsAux [] albums) k = some g :=
      lookupGroup_of_mem _ hnodup hm
    have hc := lookupGroup_buildGroupsAux albums [] k
    rw [hl] at hc
    simp only [lookupGroup, combineGroup] at hc
    by_cases hF : (albums.filter fun a => essence a.meta.album = k).isEmpty = true
    · rw [if_pos hF] at hc
      exact absurd hc (by simp)
    · rw [if_neg hF] at hc
      have hg : g = albums.filter fun a => essence a.meta.album = k :=
        Option.some_inj.mp hc
      refine ⟨hg, ?_⟩
      intro hnil
      have hnil' : g = [] := hnil
      rw [hnil'] at hg
      rw [← hg] at hF
      exact hF rfl
  have hcond : ∀ kg ∈ buildGroupsAux [] albums,
      ∃ h, (sortGroup kg.2).head? = some h ∧
        essence h.meta.album = kg.1 := by
    intro kg hm
    obtain ⟨hfil, hne⟩ := hgroup kg hm
    have hlen : (sortGroup kg.2).length = kg.2.length :=
      (sortGroup_perm kg.2).length_eq
    have hsne : sortGroup kg.2 ≠ [] := by
      intro h
      rw [h] at hlen
      exact hne (List.length_eq_zero.mp hlen.symm)
    obtain ⟨h, t, hht⟩ := List.exists_cons_of_ne_nil hsne
    have hhead : (sortGroup kg.2).head? = some h := by
      rw [hht]
      rfl
    refine ⟨h, hhead, ?_⟩
    have hmem : h ∈ kg.2 := by
      refine (sortGroup_perm kg.2).mem_iff.mp ?_
      rw [hht]
      exact List.mem_cons_self h t
    rw [hfil] at hmem
    exact of_decide_eq_true (List.mem_filter.mp hmem).2
  constructor
  · unfold Artist.filter_repeats
    rw [map_essence_filterMap _ hcond, hkeys]
    rfl
  · intro w hw
    unfold Artist.filter_repeats at hw
    obtain ⟨kg, hkg, hhd⟩ := List.mem_filterMap.mp hw
    obtain ⟨hfil, hne⟩ := hgroup kg hkg
    have hwmem : w ∈ kg.2 := by
      refine (sortGroup_perm kg.2).mem_iff.mp ?_
      cases hsg : sortGroup kg.2 with
      | nil =>
        rw [hsg] at hhd
        simp at hhd
      | cons h t =>
        rw [hsg] at hhd
        have hh : h = w := by simpa using hhd
        exact hh ▸ List.mem_cons_self h t
    rw [hfil] at hwmem
    have hw2 : essence w.meta.album = kg.1 :=
      of_decide_eq_true (List.mem_filter.mp hwmem).2
    refine ⟨(List.mem_filter.mp hwmem).1, ?_⟩
    intro b hb heq
    have hbmem : b ∈ kg.2 := by
      rw [hfil]
      exact List.mem_filter.mpr ⟨hb, decide_eq_true (heq.trans hw2)⟩
    exact sortGroup_head_max hhd b hbmem

/-- C4 counterexample: for two same-titled albums where one is explicit
with bit depth 16 and the other non-explicit with bit depth 24, the
filter keeps the non-explicit higher-bit-depth album, which is strictly
below the kept-out album in the ordering the claim states (explicit
first): the three stable sorts make bit depth, not explicitness, the
primary key. -/
theorem filter_repeats_claim_counterexample :
    Artist.filter_repeats
        [⟨⟨⟨"r1", 2, "FLAC", true, some 44100, some 16, true⟩, "X"⟩, [], "f"⟩,
          ⟨⟨⟨"r2", 2, "FLAC", false, some 44100, some 24, true⟩, "X"⟩, [], "f"⟩] =
      [⟨⟨⟨"r2", 2, "FLAC", false, some 44100, some 24, true⟩, "X"⟩, [], "f"⟩] ∧
    ¬ specKeyLe
        ⟨⟨⟨"r1", 2, "FLAC", true, some 44100, some 16, true⟩, "X"⟩, [], "f"⟩
        ⟨⟨⟨"r2", 2, "FLAC", false, some 44100, some 24, true⟩, "X"⟩, [], "f"⟩ := by
  decide

/-- Witness for the amended C4 on the counterexample pair: the kept list
has one winner for the single normalized title, and the dropped explicit
album is below the winner in the code's key order. -/
theorem filter_repeats_spec_witness :
    ((Artist.filter_repeats
        [⟨⟨⟨"r1", 2, "FLAC", true, some 44100, some 16, true⟩, "X"⟩, [], "f"⟩,
          ⟨⟨⟨"r2", 2, "FLAC", false, some 44100, some 24, true⟩, "X"⟩, [], "f"⟩]).map
      fun a => essence a.meta.album) =
      dedupKeepFirst
        (([⟨⟨⟨"r1", 2, "FLAC", true, some 44100, some 16, true⟩, "X"⟩, [], "f"⟩,
          ⟨⟨⟨"r2", 2, "FLAC", false, some 44100, some 24, true⟩, "X"⟩, [], "f"⟩] :
            List Album).map fun a => essence a.meta.album) ∧
    codeKeyLe
      ⟨⟨⟨"r1", 2, "FLAC", true, some 44100, some 16, true⟩, "X"⟩, [], "f"⟩
      ⟨⟨⟨"r2", 2, "FLAC", false, some 44100, some 24, true⟩, "X"⟩, [], "f"⟩ := by
  have h := filter_repeats_spec
    [⟨⟨⟨"r1", 2, "FLAC", true, some 44100, some 16, true⟩, "X"⟩, [], "f"⟩,
      ⟨⟨⟨"r2", 2, "FLAC", false, some 44100, some 24, true⟩, "X"⟩, [], "f"⟩]
    (by decide)
  refine ⟨h.1, ?_⟩
  exact (h.2 ⟨⟨⟨"r2", 2, "FLAC", false, some 44100, some 24, true⟩, "X"⟩, [], "f"⟩
      (by decide)).2
    ⟨⟨⟨"r1", 2, "FLAC", true, some 44100, some 16, true⟩, "X"⟩, [], "f"⟩
    (by decide) (by decide)
